import Mathlib

/-!
Verification of the describe-kun event-to-response pipeline.

The definitions below are a shallow embedding of the Go sources:
  - `extractURLs` embeds `extractURLs` (the regex
    `https?://[^\s<>"]+|www\.[^\s<>"]+` applied with `FindAllString`,
    which repeatedly takes the leftmost match and continues after it);
  - the `Env` record abstracts the external collaborators (Fetcher,
    LLM, Slack client) as pure functions, and each embedded handler
    returns its result together with the list of collaborator events
    it performed, in order;
  - `HandleEvent`, `handleNewMention`, `handleThreadMention`,
    `getThreadContextE`, `ProcessURLWithProgress` and
    `ProcessThreadMentionWithProgress` embed the functions of the same
    names from the Slack handler and the app core.

Machine-level details that do not affect the verified claims: Go map
iteration order is unspecified, so the model fixes insertion order for
the URL-content maps; progress-update failures are logged and ignored
by the code, so the model records update events without an error path.
-/

/-- Go's regexp `\s` character class: `[\t\n\f\r ]`. -/
def isSpaceGo (c : Char) : Bool :=
  c == ' ' || c == '\t' || c == '\n' || c == '\x0c' || c == '\r'

/-- A character matched by the class `[^\s<>"]` of the URL regex. -/
def isURLChar (c : Char) : Bool :=
  !(isSpaceGo c || c == '<' || c == '>' || c == '\"')

/-- The literal `https://` head of the first regex alternative. -/
def httpsPre : List Char := ['h','t','t','p','s',':','/','/']

/-- The literal `http://` head (the `s?` branch without `s`). -/
def httpPre : List Char := ['h','t','t','p',':','/','/']

/-- The literal `www.` head of the second regex alternative. -/
def wwwPre : List Char := ['w','w','w','.']

/-- Greedy `[^\s<>"]*`: the longest run of URL characters and the rest. -/
def takeURLChars : List Char → List Char × List Char
  | [] => ([], [])
  | c :: cs =>
    if isURLChar c then (c :: (takeURLChars cs).1, (takeURLChars cs).2)
    else ([], c :: cs)

/-- A match of the whole regex anchored at the head of `l`: the matched
text and the remainder, or `none`.  `https?` is greedy, so the `https://`
spelling is tried before `http://`; each alternative needs at least one
URL character after its literal head. -/
def matchURLAt (l : List Char) : Option (List Char × List Char) :=
  if httpsPre.isPrefixOf l then
    let p := takeURLChars (l.drop 8)
    if p.1.isEmpty then none else some (httpsPre ++ p.1, p.2)
  else if httpPre.isPrefixOf l then
    let p := takeURLChars (l.drop 7)
    if p.1.isEmpty then none else some (httpPre ++ p.1, p.2)
  else if wwwPre.isPrefixOf l then
    let p := takeURLChars (l.drop 4)
    if p.1.isEmpty then none else some (wwwPre ++ p.1, p.2)
  else none

/-- Embedding of `FindAllString`: scan left to right; at each position take the match
anchored there if any and continue after it, otherwise advance one
character.  Each match consumes at least one character, so a fuel of
`l.length` performs the full scan. -/
def extractAux : Nat → List Char → List (List Char)
  | 0, _ => []
  | _ + 1, [] => []
  | f + 1, c :: cs =>
    match matchURLAt (c :: cs) with
    | some (m, r) => m :: extractAux f r
    | none => extractAux f cs

/-- Embedding of `extractURLs` (the URL Extractor). -/
def extractURLs (s : String) : List String :=
  (extractAux s.data.length s.data).map String.mk

/-- A well-formed extracted URL: one of the three literal heads followed
by a nonempty run of URL characters. -/
def ValidURL (u : List Char) : Prop :=
  ∃ p r, (p = httpsPre ∨ p = httpPre ∨ p = wwwPre) ∧ u = p ++ r ∧
    r ≠ [] ∧ ∀ c ∈ r, isURLChar c = true

/-- Holds when `us` occur inside `l` in this order, without overlap. -/
def appearsInOrder : List (List Char) → List Char → Prop
  | [], _ => True
  | u :: us, l => ∃ s t, l = s ++ u ++ t ∧ appearsInOrder us t

/-- The character list of a space-joined list of tokens (tail part). -/
def joinTail : List (List Char) → List Char
  | [] => []
  | u :: us => ' ' :: (u ++ joinTail us)

/-- The character list of a space-joined list of tokens. -/
def joinSp : List (List Char) → List Char
  | [] => []
  | u :: us => u ++ joinTail us

/-- A collaborator invocation performed by the pipeline, in order:
a Fetcher call, an LLM call (with its prompt-construction mode), a
Slack `PostMessage`, a Slack `UpdateMessage` (progress edit, failures
only logged), or a `GetConversationReplies` thread-history retrieval. -/
inductive Ev where
  | fetch (url : String)
  | summarize (mode content userPrompt : String)
  | post (channel text ts : String)
  | update (ts text : String)
  | getReplies (channel ts : String)
deriving DecidableEq

/-- The external collaborators, abstracted as pure functions: the
Fetcher, the LLM backend, and the Slack client methods the handler
uses.  `Except.error` models a returned Go error. -/
structure Env where
  fetch : String → Except String String
  processContentWithMode : String → String → String → Except String String
  post : String → String → String → Except String String
  getReplies : String → String → Except String (List String)

/-- Modelled from the spec: the OpenAI client's `ProcessContent`
implementation is not under src (the LLM interface and its test mocks
are, but not the concrete client).  The interface comment and the spec
give two entry points where the mode, summary or thread, selects
prompt construction, and the New path invokes the Summarizer in
summary mode, so `ProcessContent` is `ProcessContentWithMode` at mode
`"summary"`. -/
def processContentDefault (env : Env) (content userPrompt : String) :
    Except String String :=
  env.processContentWithMode content userPrompt "summary"

/-- The fields of `slackevents.AppMentionEvent` the handler reads.
An empty `threadTimeStamp` means the mention is not inside a thread. -/
structure MentionEvent where
  user : String
  channel : String
  text : String
  timeStamp : String
  threadTimeStamp : String
deriving DecidableEq

/-- Embedding of `app.ThreadContext`.  `URLContents` is a Go `map[string]string`;
the model keeps it as an association list in insertion order (the keys
inserted by `getThreadContext` are exactly the deduplicated `URLs`, so
they are unique). -/
structure ThreadContext where
  Messages : List String
  URLs : List String
  URLContents : List (String × String)
deriving DecidableEq

/-- A progress callback: `none` models a nil callback, `some ts`
models `ProgressUpdater.UpdateProgress` editing the message `ts`. -/
def callbackEvs (cb : Option String) (msg : String) : List Ev :=
  match cb with
  | some ts => [Ev.update ts msg]
  | none => []

/-- Embedding of `App.ProcessURLWithProgress`: report progress, fetch,
reject empty content, then summarize via `ProcessContent`. -/
def ProcessURLWithProgress (env : Env) (url userPrompt : String)
    (cb : Option String) : Except String String × List Ev :=
  let e1 := callbackEvs cb (":loading: Fetching content from " ++ url ++ "...")
  match env.fetch url with
  | .error err => (.error ("failed to fetch content: " ++ err), e1 ++ [Ev.fetch url])
  | .ok content =>
    if content = "" then
      (.error ("fetched content is empty for url: " ++ url), e1 ++ [Ev.fetch url])
    else
      let e2 := callbackEvs cb (":loading: Generating summary for " ++ url ++ "...")
      match processContentDefault env content userPrompt with
      | .error err =>
        (.error ("failed to process content: " ++ err),
          e1 ++ [Ev.fetch url] ++ e2 ++ [Ev.summarize "summary" content userPrompt])
      | .ok s =>
        (.ok s, e1 ++ [Ev.fetch url] ++ e2 ++ [Ev.summarize "summary" content userPrompt])

/-- Go `map` assignment `m[k] = v`, on the insertion-ordered model. -/
def mapInsert (m : List (String × String)) (k v : String) :
    List (String × String) :=
  if m.any (fun q => q.1 == k) then
    m.map (fun q => if q.1 == k then (k, v) else q)
  else m ++ [(k, v)]

/-- The fetch loop of `ProcessThreadMentionWithProgress` over the URLs
of the latest mention: progress per URL, fetch, abort on the first
fetch error; note that it performs no lookup in the thread context's
existing mapping and no empty-content check. -/
def fetchLatestLoop (env : Env) (cb : Option String) (n : Nat) :
    Nat → List String → List (String × String) →
      Except String (List (String × String)) × List Ev
  | _, [], acc => (.ok acc, [])
  | i, u :: rest, acc =>
    let e0 := callbackEvs cb
      (":loading: Fetching new URL " ++ toString (i + 1) ++ "/" ++ toString n ++ ": " ++ u)
    match env.fetch u with
    | .error err =>
      (.error ("failed to fetch content for URL " ++ u ++ ": " ++ err), e0 ++ [Ev.fetch u])
    | .ok c =>
      let rec1 := fetchLatestLoop env cb n (i + 1) rest (mapInsert acc u c)
      (rec1.1, e0 ++ [Ev.fetch u] ++ rec1.2)

/-- One `"\nURL: u\nContent:\n` fenced block `\n"` section of the
thread prompt. -/
def urlSection (q : String × String) : String :=
  "\nURL: " ++ q.1 ++ "\nContent:\n```\n" ++ q.2 ++ "\n```\n"

/-- The numbered `Message i: text` lines of the thread prompt. -/
def numberedMessages (msgs : List String) : String :=
  String.join (msgs.enum.map
    (fun q => "Message " ++ toString (q.1 + 1) ++ ": " ++ q.2 ++ "\n"))

/-- Embedding of `App.buildThreadPrompt`.  Go iterates the two content
maps in unspecified map order; the model uses insertion order. -/
def buildThreadPrompt (tc : ThreadContext) (latestMentionText : String)
    (latest : List (String × String)) : String :=
  "You are an AI assistant helping with a conversation thread. Please analyze the context and respond appropriately to the latest user question.\n\n"
  ++ "---\n"
  ++ "Thread conversation history and URL contents:\n\n"
  ++ numberedMessages tc.Messages
  ++ String.join (tc.URLContents.map urlSection)
  ++ "---\n"
  ++ (if latest.isEmpty then ""
      else "Latest mention URL contents:\n" ++ String.join (latest.map urlSection) ++ "---\n")
  ++ "Last user question: " ++ latestMentionText ++ "\n"

/-- Embedding of `App.ProcessThreadMentionWithProgress`: fetch every
URL of the latest mention (fatally on error), build the composite
prompt, and call the LLM in thread mode with an empty user prompt. -/
def ProcessThreadMentionWithProgress (env : Env) (tc : ThreadContext)
    (latestMentionText : String) (latestMentionURLs : List String)
    (cb : Option String) : Except String String × List Ev :=
  match fetchLatestLoop env cb latestMentionURLs.length 0 latestMentionURLs [] with
  | (.error e, evs) => (.error e, evs)
  | (.ok latest, evs) =>
    let e1 := callbackEvs cb ":loading: Analyzing thread context and generating response..."
    let prompt := buildThreadPrompt tc latestMentionText latest
    match env.processContentWithMode prompt "" "thread" with
    | .error err =>
      (.error ("failed to process thread content: " ++ err),
        evs ++ e1 ++ [Ev.summarize "thread" prompt ""])
    | .ok resp => (.ok resp, evs ++ e1 ++ [Ev.summarize "thread" prompt ""])

/-- The URL collection of `getThreadContext`: walk the messages in
thread order, extract URLs from each, and append the ones not already
seen (the Go code keeps an `allURLs` set synchronized with the list). -/
def collectURLs (msgs : List String) : List String :=
  msgs.foldl
    (fun acc msg => (extractURLs msg).foldl
      (fun a u => if u ∈ a then a else a ++ [u]) acc)
    []

/-- What `getThreadContext` records for one URL: the fetched content,
or the placeholder error string on a fetch error. -/
def fetchRecord (env : Env) (u : String) : String :=
  match env.fetch u with
  | .error err => "Error fetching content: " ++ err
  | .ok c => c

/-- The content-fetch loop of `getThreadContext`: one mapping entry
per URL, errors absorbed into the entry. -/
def fetchContentsLoop (env : Env) : List String → List (String × String) × List Ev
  | [] => ([], [])
  | u :: rest =>
    let rec1 := fetchContentsLoop env rest
    ((u, fetchRecord env u) :: rec1.1, Ev.fetch u :: rec1.2)

/-- Embedding of `getThreadContext` (the Thread Context Aggregator):
retrieve the thread history (failing only if that fails), collect the
deduplicated URLs, and fetch content for each. -/
def getThreadContextE (env : Env) (channel threadTS : String) :
    Except String ThreadContext × List Ev :=
  match env.getReplies channel threadTS with
  | .error err =>
    (.error ("failed to get conversation replies: " ++ err),
      [Ev.getReplies channel threadTS])
  | .ok msgs =>
    let urls := collectURLs msgs
    let rec1 := fetchContentsLoop env urls
    (.ok { Messages := msgs, URLs := urls, URLContents := rec1.1 },
      Ev.getReplies channel threadTS :: rec1.2)

/-- The per-URL loop of `handleNewMention`: progress update, process
the URL with an empty user prompt, on error report per-URL and
continue, on success accumulate the summary section. -/
def newMentionLoop (env : Env) (lts : String) (n : Nat) :
    Nat → List String → List String × List Ev
  | _, [] => ([], [])
  | i, u :: rest =>
    let e0 := [Ev.update lts
      (":loading: Processing URL " ++ toString (i + 1) ++ "/" ++ toString n ++ ": " ++ u)]
    match ProcessURLWithProgress env u "" (some lts) with
    | (.error err, pevs) =>
      let rec1 := newMentionLoop env lts n (i + 1) rest
      (rec1.1, e0 ++ pevs ++ [Ev.update lts ("Error summarizing " ++ u ++ ": " ++ err)] ++ rec1.2)
    | (.ok s, pevs) =>
      let rec1 := newMentionLoop env lts n (i + 1) rest
      (("Summary for " ++ u ++ ":\n" ++ s) :: rec1.1, e0 ++ pevs ++ rec1.2)

/-- Embedding of `handleNewMention`: extract URLs, post a message if
none, otherwise post the `:loading:` status message (returning early
if that post fails), process the URLs in order, and overwrite the
status message with the joined summaries or the all-failed notice. -/
def handleNewMention (env : Env) (ev : MentionEvent) : List Ev :=
  let urls := extractURLs ev.text
  if urls.isEmpty then
    [Ev.post ev.channel
      "No URLs found in your message. Please include a URL for me to summarize."
      ev.timeStamp]
  else
    match env.post ev.channel ":loading:" ev.timeStamp with
    | .error _ => [Ev.post ev.channel ":loading:" ev.timeStamp]
    | .ok lts =>
      let rec1 := newMentionLoop env lts urls.length 0 urls
      let final := if rec1.1.isEmpty then "No summaries could be generated."
                   else String.intercalate "\n\n---\n\n" rec1.1
      Ev.post ev.channel ":loading:" ev.timeStamp :: rec1.2 ++ [Ev.update lts final]

/-- Embedding of `handleThreadMention`: post the `:loading:` status
message (returning early on failure), build the thread context
(reporting an error and stopping if that fails), then process the
thread mention (reporting an error or the final response). -/
def handleThreadMention (env : Env) (ev : MentionEvent) : List Ev :=
  match env.post ev.channel ":loading:" ev.threadTimeStamp with
  | .error _ => [Ev.post ev.channel ":loading:" ev.threadTimeStamp]
  | .ok lts =>
    let e0 := [Ev.post ev.channel ":loading:" ev.threadTimeStamp,
               Ev.update lts ":loading: Getting thread context..."]
    match getThreadContextE env ev.channel ev.threadTimeStamp with
    | (.error err, gevs) =>
      e0 ++ gevs ++ [Ev.update lts ("Error getting thread context: " ++ err)]
    | (.ok tc, gevs) =>
      let latestMentionURLs := extractURLs ev.text
      let e1 := [Ev.update lts ":loading: Processing thread mention..."]
      match ProcessThreadMentionWithProgress env tc ev.text latestMentionURLs (some lts) with
      | (.error err, pevs) =>
        e0 ++ gevs ++ e1 ++ pevs ++ [Ev.update lts ("Error processing thread mention: " ++ err)]
      | (.ok resp, pevs) =>
        e0 ++ gevs ++ e1 ++ pevs ++ [Ev.update lts resp]

/-- Embedding of `handleAppMention`: classify by the presence of a
thread-root timestamp. -/
def handleAppMention (env : Env) (ev : MentionEvent) : List Ev :=
  if ev.threadTimeStamp ≠ "" then handleThreadMention env ev
  else handleNewMention env ev

/-- The parse outcome of the request body, `slackevents.ParseEvent`
followed by the challenge unmarshalling for a URL-verification event
(`none` models a challenge payload that fails to unmarshal). -/
inductive ParsedEvent where
  | urlVerification (challenge : Option String)
  | appMention (ev : MentionEvent)
  | otherCallback
  | otherType
deriving DecidableEq

/-- The stage outcomes of one inbound HTTP request: verifier creation,
body read, verifier write, signature check, and the parsed body. -/
structure Request where
  verifierCreateOk : Bool
  readBodyOk : Bool
  verifierWriteOk : Bool
  signatureValid : Bool
  parsed : Except Unit ParsedEvent

/-- The HTTP status and body written by `HandleEvent`. -/
structure HTTPResponse where
  status : Nat
  body : String
deriving DecidableEq

/-- Embedding of `HandleEvent`: transport errors give 500, a failed
signature check gives 401, a URL-verification challenge is echoed with
200, an app-mention is acknowledged with 200 and handed to the
dispatcher (the returned `Option MentionEvent`), and anything else is
acknowledged with 200. -/
def HandleEvent (req : Request) : HTTPResponse × Option MentionEvent :=
  if req.verifierCreateOk then
    if req.readBodyOk then
      if req.verifierWriteOk then
        if req.signatureValid then
          match req.parsed with
          | .error _ => (⟨500, ""⟩, none)
          | .ok (.urlVerification none) => (⟨500, ""⟩, none)
          | .ok (.urlVerification (some c)) => (⟨200, c⟩, none)
          | .ok (.appMention ev) => (⟨200, ""⟩, some ev)
          | .ok .otherCallback => (⟨200, ""⟩, none)
          | .ok .otherType => (⟨200, ""⟩, none)
        else (⟨401, ""⟩, none)
      else (⟨500, ""⟩, none)
    else (⟨500, ""⟩, none)
  else (⟨500, ""⟩, none)

/-- All collaborator work caused by one request: the dispatcher runs
asynchronously after the acknowledgment, so the system trace is the
trace of the dispatched mention, if one was dispatched. -/
def systemTrace (env : Env) (req : Request) : List Ev :=
  match (HandleEvent req).2 with
  | some ev => handleAppMention env ev
  | none => []

/-- The text of an update event. -/
def updateText : Ev → Option String
  | .update _ t => some t
  | _ => none

/-- The text of the last `UpdateMessage` in a trace: what the single
status message shows once processing ends. -/
def lastUpdateText (evs : List Ev) : Option String :=
  (evs.filterMap updateText).getLast?

/-- Whether an event is an LLM call. -/
def isSummarizeEv : Ev → Bool
  | .summarize _ _ _ => true
  | _ => false

/-- Whether a token list occurs inside another. -/
def hasSubstr : List Char → List Char → Bool
  | [], n => n.isEmpty
  | c :: t, n => n.isPrefixOf (c :: t) || hasSubstr t n

/-- First-occurrence deduplication, the specification-side view of the
URL set built by `collectURLs`. -/
def dedupFirst (l : List String) : List String :=
  l.foldl (fun acc u => if u ∈ acc then acc else acc ++ [u]) []

/-- All URLs extracted across a message sequence, in thread order. -/
def allExtracted (msgs : List String) : List String :=
  msgs.foldr (fun msg acc => extractURLs msg ++ acc) []

/-- A concrete collaborator environment for witnesses: two fetchable
URLs, one URL with empty content, everything else failing. -/
def envA : Env where
  fetch u :=
    if u = "http://ok.example/a" then .ok "CONTENT-A"
    else if u = "http://ok.example/b" then .ok "CONTENT-B"
    else if u = "http://empty.example" then .ok ""
    else .error "connection refused"
  processContentWithMode _ _ mode := .ok ("RESP-" ++ mode)
  post _ _ _ := .ok "100.200"
  getReplies _ _ := .ok ["root http://ok.example/a",
    "reply http://ok.example/a and http://down.example"]

/-- Environment `envA` with a failing `PostMessage`. -/
def envPostFail : Env :=
  { envA with post := fun _ _ _ => .error "channel is archived" }

/-- Environment `envA` with a failing thread-history retrieval. -/
def envHistFail : Env :=
  { envA with getReplies := fun _ _ => .error "rate limited" }

/-- A new (non-thread) mention with one URL and trailing prompt text. -/
def evPrompted : MentionEvent where
  user := "U1"
  channel := "CH"
  text := "check http://ok.example/a please explain the title"
  timeStamp := "1.0"
  threadTimeStamp := ""

/-- A new mention with two URLs, the first of which fails to fetch. -/
def evTwoURLs : MentionEvent where
  user := "U1"
  channel := "CH"
  text := "see http://down.example and http://ok.example/b"
  timeStamp := "2.0"
  threadTimeStamp := ""

/-- A mention inside the thread rooted at timestamp 9.9. -/
def evThreaded : MentionEvent where
  user := "U1"
  channel := "CH"
  text := "what does http://ok.example/a say"
  timeStamp := "10.0"
  threadTimeStamp := "9.9"

/-- A request that fails the signature check. -/
def reqBadSig : Request where
  verifierCreateOk := true
  readBodyOk := true
  verifierWriteOk := true
  signatureValid := false
  parsed := .ok (.appMention evPrompted)

/-- A valid handshake request carrying the challenge `abc123`. -/
def reqChallenge : Request where
  verifierCreateOk := true
  readBodyOk := true
  verifierWriteOk := true
  signatureValid := true
  parsed := .ok (.urlVerification (some "abc123"))

/-- The thread context `envA` produces for any thread. -/
def tcA : ThreadContext where
  Messages := ["root http://ok.example/a",
    "reply http://ok.example/a and http://down.example"]
  URLs := ["http://ok.example/a", "http://down.example"]
  URLContents := [("http://ok.example/a", "CONTENT-A"),
    ("http://down.example", "Error fetching content: connection refused")]

theorem takeURLChars_append_self (l : List Char) :
    (takeURLChars l).1 ++ (takeURLChars l).2 = l := by
  induction l with
  | nil => rfl
  | cons c cs ih =>
    by_cases h : isURLChar c = true
    · simp [takeURLChars, h, ih]
    · simp [takeURLChars, h]

theorem takeURLChars_mem (l : List Char) :
    ∀ c ∈ (takeURLChars l).1, isURLChar c = true := by
  induction l with
  | nil => intro c hc; simp [takeURLChars] at hc
  | cons c cs ih =>
    intro d hd
    by_cases h : isURLChar c = true
    · simp [takeURLChars, h] at hd
      rcases hd with hd | hd
      · exact hd ▸ h
      · exact ih d hd
    · simp [takeURLChars, h] at hd

theorem takeURLChars_rest (l : List Char) :
    (takeURLChars l).2 = [] ∨
      ∃ d ds, (takeURLChars l).2 = d :: ds ∧ isURLChar d = false := by
  induction l with
  | nil => left; rfl
  | cons c cs ih =>
    by_cases h : isURLChar c = true
    · simpa [takeURLChars, h] using ih
    · right; exact ⟨c, cs, by simp [takeURLChars, h], by simpa using h⟩

theorem takeURLChars_of_run (a b : List Char)
    (ha : ∀ c ∈ a, isURLChar c = true)
    (hb : b = [] ∨ ∃ d ds, b = d :: ds ∧ isURLChar d = false) :
    takeURLChars (a ++ b) = (a, b) := by
  induction a with
  | nil =>
    rcases hb with hb | ⟨d, ds, hb, hd⟩
    · subst hb; rfl
    · subst hb; simp [takeURLChars, hd]
  | cons c cs ih =>
    have hc : isURLChar c = true := ha c (by simp)
    have := ih (fun x hx => ha x (by simp [hx]))
    simp [takeURLChars, hc, this]

theorem isPrefixOf_true_iff {p l : List Char} :
    p.isPrefixOf l = true ↔ ∃ t, l = p ++ t := by
  induction p generalizing l with
  | nil => simp [List.isPrefixOf]
  | cons c cs ih =>
    cases l with
    | nil => simp [List.isPrefixOf]
    | cons d ds =>
      simp only [List.isPrefixOf, Bool.and_eq_true, beq_iff_eq, ih,
        List.cons_append, List.cons.injEq]
      constructor
      · rintro ⟨rfl, t, rfl⟩; exact ⟨t, rfl, rfl⟩
      · rintro ⟨t, rfl, rfl⟩; exact ⟨rfl, t, rfl⟩

theorem matchURLAt_spec {l m r : List Char}
    (h : matchURLAt l = some (m, r)) :
    ValidURL m ∧ l = m ++ r ∧
      (r = [] ∨ ∃ d ds, r = d :: ds ∧ isURLChar d = false) := by
  unfold matchURLAt at h
  by_cases h8 : httpsPre.isPrefixOf l = true
  · rw [if_pos h8] at h
    obtain ⟨t, rfl⟩ := isPrefixOf_true_iff.mp h8
    rw [List.drop_left' (by rfl)] at h
    by_cases he : (takeURLChars t).1.isEmpty = true
    · simp [he] at h
    · rw [if_neg he] at h
      rw [Option.some.injEq, Prod.mk.injEq] at h
      obtain ⟨rfl, rfl⟩ := h
      refine ⟨⟨httpsPre, (takeURLChars t).1, Or.inl rfl, rfl,
        by simpa [List.isEmpty_iff] using he, takeURLChars_mem t⟩, ?_, ?_⟩
      · rw [List.append_assoc, takeURLChars_append_self]
      · exact takeURLChars_rest t
  · rw [if_neg h8] at h
    by_cases h7 : httpPre.isPrefixOf l = true
    · rw [if_pos h7] at h
      obtain ⟨t, rfl⟩ := isPrefixOf_true_iff.mp h7
      rw [List.drop_left' (by rfl)] at h
      by_cases he : (takeURLChars t).1.isEmpty = true
      · simp [he] at h
      · rw [if_neg he] at h
        rw [Option.some.injEq, Prod.mk.injEq] at h
        obtain ⟨rfl, rfl⟩ := h
        refine ⟨⟨httpPre, (takeURLChars t).1, Or.inr (Or.inl rfl), rfl,
          by simpa [List.isEmpty_iff] using he, takeURLChars_mem t⟩, ?_, ?_⟩
        · rw [List.append_assoc, takeURLChars_append_self]
        · exact takeURLChars_rest t
    · rw [if_neg h7] at h
      by_cases h4 : wwwPre.isPrefixOf l = true
      · rw [if_pos h4] at h
        obtain ⟨t, rfl⟩ := isPrefixOf_true_iff.mp h4
        rw [List.drop_left' (by rfl)] at h
        by_cases he : (takeURLChars t).1.isEmpty = true
        · simp [he] at h
        · rw [if_neg he] at h
          rw [Option.some.injEq, Prod.mk.injEq] at h
          obtain ⟨rfl, rfl⟩ := h
          refine ⟨⟨wwwPre, (takeURLChars t).1, Or.inr (Or.inr rfl), rfl,
            by simpa [List.isEmpty_iff] using he, takeURLChars_mem t⟩, ?_, ?_⟩
          · rw [List.append_assoc, takeURLChars_append_self]
          · exact takeURLChars_rest t
      · rw [if_neg h4] at h
        exact absurd h (by simp)

theorem matchURLAt_of_valid {u r : List Char} (hu : ValidURL u)
    (hr : r = [] ∨ ∃ d ds, r = d :: ds ∧ isURLChar d = false) :
    matchURLAt (u ++ r) = some (u, r) := by
  obtain ⟨p, run, hp, rfl, hne, hrun⟩ := hu
  have hrunr : takeURLChars (run ++ r) = (run, r) := takeURLChars_of_run run r hrun hr
  have hemp : run.isEmpty = false := by simpa [List.isEmpty_iff] using hne
  rcases hp with rfl | rfl | rfl
  · have h8 : httpsPre.isPrefixOf (httpsPre ++ run ++ r) = true := by
      rw [List.append_assoc]; exact isPrefixOf_true_iff.mpr ⟨run ++ r, rfl⟩
    unfold matchURLAt
    rw [if_pos h8]
    simp only [List.append_assoc, List.drop_left' (show httpsPre.length = 8 from rfl), hrunr,
      hemp, Bool.false_eq_true, if_false]
  · have h8 : httpsPre.isPrefixOf (httpPre ++ run ++ r) = false := rfl
    have h7 : httpPre.isPrefixOf (httpPre ++ run ++ r) = true := by
      rw [List.append_assoc]; exact isPrefixOf_true_iff.mpr ⟨run ++ r, rfl⟩
    unfold matchURLAt
    rw [if_neg (by simp only [h8]; decide), if_pos h7]
    simp only [List.append_assoc, List.drop_left' (show httpPre.length = 7 from rfl), hrunr,
      hemp, Bool.false_eq_true, if_false]
  · have h8 : httpsPre.isPrefixOf (wwwPre ++ run ++ r) = false := rfl
    have h7 : httpPre.isPrefixOf (wwwPre ++ run ++ r) = false := rfl
    have h4 : wwwPre.isPrefixOf (wwwPre ++ run ++ r) = true := by
      rw [List.append_assoc]; exact isPrefixOf_true_iff.mpr ⟨run ++ r, rfl⟩
    unfold matchURLAt
    rw [if_neg (by simp only [h8]; decide), if_neg (by simp only [h7]; decide), if_pos h4]
    simp only [List.append_assoc, List.drop_left' (show wwwPre.length = 4 from rfl), hrunr,
      hemp, Bool.false_eq_true, if_false]

theorem matchURLAt_rest_lt {l m r : List Char}
    (h : matchURLAt l = some (m, r)) : r.length < l.length := by
  obtain ⟨hv, hl, _⟩ := matchURLAt_spec h
  obtain ⟨p, run, hp, rfl, _, _⟩ := hv
  subst hl
  have hp1 : 0 < p.length := by
    rcases hp with rfl | rfl | rfl <;> simp [httpsPre, httpPre, wwwPre]
  simp only [List.length_append]
  omega

theorem extractAux_succ_cons (f : Nat) (c : Char) (cs : List Char) :
    extractAux (f + 1) (c :: cs) =
      match matchURLAt (c :: cs) with
      | some (m, r) => m :: extractAux f r
      | none => extractAux f cs := rfl

theorem extractAux_nil (f : Nat) : extractAux f [] = [] := by
  cases f <;> rfl

theorem extractAux_valid :
    ∀ (f : Nat) (l : List Char), ∀ u ∈ extractAux f l, ValidURL u := by
  intro f
  induction f with
  | zero => intro l u hu; simp [extractAux] at hu
  | succ f ih =>
    intro l u hu
    cases l with
    | nil => simp [extractAux] at hu
    | cons c cs =>
      rw [extractAux_succ_cons] at hu
      cases hm : matchURLAt (c :: cs) with
      | none => rw [hm] at hu; exact ih cs u hu
      | some p =>
        obtain ⟨m, r⟩ := p
        rw [hm] at hu
        rcases List.mem_cons.mp hu with rfl | hu
        · exact (matchURLAt_spec hm).1
        · exact ih r u hu

theorem appearsInOrder_cons {us : List (List Char)} {l : List Char} (c : Char)
    (h : appearsInOrder us l) : appearsInOrder us (c :: l) := by
  cases us with
  | nil => trivial
  | cons u us =>
    obtain ⟨s, t, rfl, ht⟩ := h
    exact ⟨c :: s, t, rfl, ht⟩

theorem extractAux_appears :
    ∀ (f : Nat) (l : List Char), appearsInOrder (extractAux f l) l := by
  intro f
  induction f with
  | zero => intro l; simp [extractAux, appearsInOrder]
  | succ f ih =>
    intro l
    cases l with
    | nil => simp [extractAux, appearsInOrder]
    | cons c cs =>
      rw [extractAux_succ_cons]
      cases hm : matchURLAt (c :: cs) with
      | none => exact appearsInOrder_cons c (ih cs)
      | some p =>
        obtain ⟨m, r⟩ := p
        obtain ⟨_, hl, _⟩ := matchURLAt_spec hm
        exact ⟨[], r, by simpa using hl, ih r⟩

theorem extractAux_fuel :
    ∀ (f g : Nat) (l : List Char), l.length ≤ f → l.length ≤ g →
      extractAux f l = extractAux g l := by
  intro f
  induction f with
  | zero =>
    intro g l hf _
    have : l = [] := List.length_eq_zero.mp (Nat.le_zero.mp hf)
    subst this
    rw [extractAux_nil, extractAux_nil]
  | succ f ih =>
    intro g l hf hg
    cases l with
    | nil => rw [extractAux_nil, extractAux_nil]
    | cons c cs =>
      cases g with
      | zero => simp at hg
      | succ g' =>
        rw [extractAux_succ_cons, extractAux_succ_cons]
        cases hm : matchURLAt (c :: cs) with
        | none =>
          simp only [List.length_cons] at hf hg
          exact ih g' cs (by omega) (by omega)
        | some p =>
          obtain ⟨m, r⟩ := p
          have hr := matchURLAt_rest_lt hm
          simp only [List.length_cons] at hf hg hr
          show m :: extractAux f r = m :: extractAux g' r
          rw [ih g' r (by omega) (by omega)]

theorem matchURLAt_space (x : List Char) : matchURLAt (' ' :: x) = none := rfl

theorem extractAux_joinSp :
    ∀ (us : List (List Char)) (f : Nat), (∀ u ∈ us, ValidURL u) →
      (joinSp us).length ≤ f → extractAux f (joinSp us) = us := by
  intro us
  induction us with
  | nil => intro f _ _; exact extractAux_nil f
  | cons u us ih =>
    intro f hv hf
    obtain ⟨p, run, hp, hu, hne, hrun⟩ := hv u (by simp)
    have hm : matchURLAt (u ++ joinTail us) = some (u, joinTail us) := by
      apply matchURLAt_of_valid ⟨p, run, hp, hu, hne, hrun⟩
      cases us with
      | nil => left; rfl
      | cons v vs => right; exact ⟨' ', v ++ joinTail vs, rfl, by decide⟩
    have hulen : 0 < u.length := by
      subst hu
      rcases hp with rfl | rfl | rfl <;> simp [httpsPre, httpPre, wwwPre]
    obtain ⟨c, cs, hshape⟩ : ∃ c cs, u ++ joinTail us = c :: cs := by
      cases u with
      | nil => simp at hulen
      | cons c cs' => exact ⟨c, cs' ++ joinTail us, rfl⟩
    have hlen : (joinSp (u :: us)).length = u.length + (joinTail us).length := by
      simp [joinSp]
    cases f with
    | zero =>
      exfalso
      rw [hlen] at hf
      omega
    | succ f' =>
      show extractAux (f' + 1) (u ++ joinTail us) = u :: us
      rw [hshape, extractAux_succ_cons, ← hshape, hm]
      show u :: extractAux f' (joinTail us) = u :: us
      congr 1
      cases us with
      | nil => exact extractAux_nil f'
      | cons v vs =>
        have hjt : joinTail (v :: vs) = ' ' :: joinSp (v :: vs) := rfl
        rw [hjt]
        have hlen2 : (joinSp (v :: vs)).length + 1 + u.length = (joinSp (u :: v :: vs)).length := by
          simp [joinSp, joinTail]
          omega
        cases f' with
        | zero =>
          exfalso
          rw [← hlen2] at hf
          omega
        | succ f'' =>
          rw [extractAux_succ_cons, matchURLAt_space]
          exact ih f'' (fun x hx => hv x (by simp [hx])) (by rw [← hlen2] at hf; omega)

theorem intercalate_go_data (as : List String) : ∀ acc : String,
    (String.intercalate.go acc " " as).data = acc.data ++ joinTail (as.map String.data) := by
  induction as with
  | nil => intro acc; simp [String.intercalate.go, joinTail]
  | cons a as ih =>
    intro acc
    rw [String.intercalate.go, ih (acc ++ " " ++ a)]
    simp [joinTail]

theorem intercalate_space_data (ss : List String) :
    (String.intercalate " " ss).data = joinSp (ss.map String.data) := by
  cases ss with
  | nil => rfl
  | cons a as =>
    rw [String.intercalate, intercalate_go_data]
    rfl

theorem data_map_mk (ls : List (List Char)) :
    (ls.map String.mk).map String.data = ls := by
  induction ls with
  | nil => rfl
  | cons l ls ih => simp [ih]

/-- C1: a request whose signature verification against the raw body
fails is answered with HTTP 401, no event is dispatched, and the
system performs no collaborator work at all (no parse-dependent
behaviour, no Fetcher or Summarizer call, no Mention Dispatcher run). -/
theorem c1_signature_failure_rejected (env : Env) (req : Request)
    (h1 : req.verifierCreateOk = true) (h2 : req.readBodyOk = true)
    (h3 : req.verifierWriteOk = true) (h4 : req.signatureValid = false) :
    (HandleEvent req).1.status = 401 ∧ (HandleEvent req).2 = none ∧
      systemTrace env req = [] := by
  have hH : HandleEvent req = (⟨401, ""⟩, none) := by
    unfold HandleEvent
    rw [h1, h2, h3, h4]
    simp
  refine ⟨by rw [hH], by rw [hH], ?_⟩
  unfold systemTrace
  rw [hH]

/-- C1 witness: the concrete bad-signature request. -/
theorem c1_witness :
    (HandleEvent reqBadSig).1.status = 401 ∧ (HandleEvent reqBadSig).2 = none ∧
      systemTrace envA reqBadSig = [] :=
  c1_signature_failure_rejected envA reqBadSig rfl rfl rfl rfl

/-- C9: a verified handshake request whose payload carries a challenge
token is answered synchronously with HTTP 200 and a body that is
exactly the token; no mention is dispatched and no collaborator work
happens. -/
theorem c9_challenge_echoed (env : Env) (req : Request) (c : String)
    (h1 : req.verifierCreateOk = true) (h2 : req.readBodyOk = true)
    (h3 : req.verifierWriteOk = true) (h4 : req.signatureValid = true)
    (h5 : req.parsed = .ok (.urlVerification (some c))) :
    (HandleEvent req).1 = ⟨200, c⟩ ∧ (HandleEvent req).2 = none ∧
      systemTrace env req = [] := by
  have hH : HandleEvent req = (⟨200, c⟩, none) := by
    unfold HandleEvent
    rw [h1, h2, h3, h4, h5]
    simp
  refine ⟨by rw [hH], by rw [hH], ?_⟩
  unfold systemTrace
  rw [hH]

/-- C9 witness: the concrete challenge `abc123` is echoed with 200. -/
theorem c9_witness :
    (HandleEvent reqChallenge).1 = ⟨200, "abc123"⟩ ∧
      (HandleEvent reqChallenge).2 = none ∧
      systemTrace envA reqChallenge = [] :=
  c9_challenge_echoed envA reqChallenge "abc123" rfl rfl rfl rfl rfl

/-- C10: in both mention paths, if posting the initial `:loading:`
status message fails, processing stops at once: the trace is exactly
the one failed post, so nothing is fetched, summarized, retrieved or
updated afterwards. -/
theorem c10_initial_post_failure_stops (env : Env) (ev : MentionEvent) (e : String) :
    (ev.threadTimeStamp = "" → extractURLs ev.text ≠ [] →
      env.post ev.channel ":loading:" ev.timeStamp = .error e →
      handleAppMention env ev = [Ev.post ev.channel ":loading:" ev.timeStamp]) ∧
    (ev.threadTimeStamp ≠ "" →
      env.post ev.channel ":loading:" ev.threadTimeStamp = .error e →
      handleAppMention env ev = [Ev.post ev.channel ":loading:" ev.threadTimeStamp]) := by
  constructor
  · intro hts hurls hpost
    rw [handleAppMention, if_neg (by simp [hts])]
    rw [handleNewMention]
    rw [if_neg (by simpa [List.isEmpty_iff] using hurls)]
    rw [hpost]
  · intro hts hpost
    rw [handleAppMention, if_pos hts]
    rw [handleThreadMention, hpost]

/-- C10 witness: with a failing `PostMessage`, both a new mention with
a URL and a threaded mention produce exactly the one failed post. -/
theorem c10_witness :
    handleAppMention envPostFail evPrompted = [Ev.post "CH" ":loading:" "1.0"] ∧
    handleAppMention envPostFail evThreaded = [Ev.post "CH" ":loading:" "9.9"] :=
  ⟨(c10_initial_post_failure_stops envPostFail evPrompted "channel is archived").1
      rfl (by decide) rfl,
    (c10_initial_post_failure_stops envPostFail evThreaded "channel is archived").2
      (by decide) rfl⟩

theorem foldl_dedup_mem (l : List String) : ∀ (acc : List String) (u : String),
    (u ∈ l.foldl (fun a v => if v ∈ a then a else a ++ [v]) acc) ↔
      u ∈ acc ∨ u ∈ l := by
  induction l with
  | nil => simp
  | cons x xs ih =>
    intro acc u
    simp only [List.foldl_cons]
    by_cases hx : x ∈ acc
    · rw [if_pos hx, ih]
      constructor
      · rintro (h | h)
        · exact Or.inl h
        · exact Or.inr (by simp [h])
      · rintro (h | h)
        · exact Or.inl h
        · rcases List.mem_cons.mp h with rfl | h
          · exact Or.inl hx
          · exact Or.inr h
    · rw [if_neg hx, ih]
      simp only [List.mem_append, List.mem_singleton, List.mem_cons]
      tauto

theorem foldl_dedup_nodup (l : List String) : ∀ acc : List String,
    acc.Nodup → (l.foldl (fun a v => if v ∈ a then a else a ++ [v]) acc).Nodup := by
  induction l with
  | nil => intro acc h; exact h
  | cons x xs ih =>
    intro acc hacc
    simp only [List.foldl_cons]
    by_cases hx : x ∈ acc
    · rw [if_pos hx]; exact ih acc hacc
    · rw [if_neg hx]
      apply ih
      rw [List.nodup_append]
      exact ⟨hacc, List.nodup_singleton x,
        fun a ha hb => by simp at hb; subst hb; exact hx ha⟩

theorem collectURLs_eq_dedupFirst (msgs : List String) :
    collectURLs msgs = dedupFirst (allExtracted msgs) := by
  suffices h : ∀ acc, msgs.foldl
      (fun acc msg => (extractURLs msg).foldl
        (fun a u => if u ∈ a then a else a ++ [u]) acc) acc
      = (allExtracted msgs).foldl (fun acc u => if u ∈ acc then acc else acc ++ [u]) acc by
    exact h []
  induction msgs with
  | nil => intro acc; rfl
  | cons m ms ih =>
    intro acc
    have hall : allExtracted (m :: ms) = extractURLs m ++ allExtracted ms := rfl
    rw [List.foldl_cons, hall, List.foldl_append]
    exact ih _

theorem fetchContentsLoop_spec (env : Env) (urls : List String) :
    fetchContentsLoop env urls =
      (urls.map (fun u => (u, fetchRecord env u)), urls.map Ev.fetch) := by
  induction urls with
  | nil => rfl
  | cons u rest ih => simp [fetchContentsLoop, ih]

/-- C7: every thread context the aggregator returns has pairwise
distinct URLs, obtained by first-occurrence deduplication of all URLs
extracted from the thread messages in order (so each URL sits at its
first-seen position), and its content mapping has exactly one entry
per listed URL, hence none for URLs never seen in the thread. -/
theorem c7_thread_context_invariants (env : Env) (ch ts : String)
    (tc : ThreadContext)
    (h : (getThreadContextE env ch ts).1 = .ok tc) :
    tc.URLs.Nodup ∧
    tc.URLs = dedupFirst (allExtracted tc.Messages) ∧
    (∀ u, u ∈ tc.URLs ↔ u ∈ allExtracted tc.Messages) ∧
    tc.URLContents.map Prod.fst = tc.URLs := by
  cases hg : env.getReplies ch ts with
  | error e => simp [getThreadContextE, hg] at h
  | ok msgs =>
    simp only [getThreadContextE, hg, Except.ok.injEq] at h
    subst h
    refine ⟨?_, ?_, ?_, ?_⟩
    · show (collectURLs msgs).Nodup
      rw [collectURLs_eq_dedupFirst]
      unfold dedupFirst
      exact foldl_dedup_nodup _ [] List.nodup_nil
    · exact collectURLs_eq_dedupFirst msgs
    · intro u
      show u ∈ collectURLs msgs ↔ _
      rw [collectURLs_eq_dedupFirst]
      unfold dedupFirst
      rw [foldl_dedup_mem]
      simp
    · show (fetchContentsLoop env (collectURLs msgs)).1.map Prod.fst = _
      rw [fetchContentsLoop_spec]
      simp only [List.map_map]
      have hfu : (Prod.fst ∘ fun u => (u, fetchRecord env u)) = fun u : String => u := rfl
      rw [hfu]
      exact List.map_id _

/-- C7 witness: a thread repeating one URL across two messages yields
it once, first-seen first, with one mapping entry per URL. -/
theorem c7_witness :
    tcA.URLs.Nodup ∧
    tcA.URLs = dedupFirst (allExtracted tcA.Messages) ∧
    (∀ u, u ∈ tcA.URLs ↔ u ∈ allExtracted tcA.Messages) ∧
    tcA.URLContents.map Prod.fst = tcA.URLs :=
  c7_thread_context_invariants envA "CH" "9.9" tcA rfl

/-- C8: the aggregator fails exactly when retrieving the thread
history fails (with the wrapped transport error); when retrieval
succeeds it always succeeds, recording for each URL either the content
or the `Error fetching content:` placeholder (via `fetchRecord`), so
per-URL fetch errors are absorbed into the data; and when history
retrieval fails the threaded path performs exactly one status post,
two updates ending in the reported error, and the history call, with
no Summarizer invocation. -/
theorem c8_history_failure_semantics (env : Env) (ch ts : String) :
    ((∃ x, (getThreadContextE env ch ts).1 = .error x) ↔
      (∃ e, env.getReplies ch ts = .error e)) ∧
    (∀ e, env.getReplies ch ts = .error e →
      (getThreadContextE env ch ts).1 =
        .error ("failed to get conversation replies: " ++ e)) ∧
    (∀ msgs, env.getReplies ch ts = .ok msgs →
      (getThreadContextE env ch ts).1 = .ok
        { Messages := msgs, URLs := collectURLs msgs,
          URLContents := (collectURLs msgs).map (fun u => (u, fetchRecord env u)) }) ∧
    (∀ (ev : MentionEvent) (lts e : String),
      env.post ev.channel ":loading:" ev.threadTimeStamp = .ok lts →
      env.getReplies ev.channel ev.threadTimeStamp = .error e →
      handleThreadMention env ev =
        [Ev.post ev.channel ":loading:" ev.threadTimeStamp,
         Ev.update lts ":loading: Getting thread context...",
         Ev.getReplies ev.channel ev.threadTimeStamp,
         Ev.update lts
           ("Error getting thread context: failed to get conversation replies: " ++ e)] ∧
      ∀ m c q, Ev.summarize m c q ∉ handleThreadMention env ev) := by
  refine ⟨?_, ?_, ?_, ?_⟩
  · constructor
    · rintro ⟨x, hx⟩
      cases hg : env.getReplies ch ts with
      | error e => exact ⟨e, rfl⟩
      | ok msgs => simp [getThreadContextE, hg] at hx
    · rintro ⟨e, he⟩
      exact ⟨"failed to get conversation replies: " ++ e, by simp [getThreadContextE, he]⟩
  · intro e he
    simp [getThreadContextE, he]
  · intro msgs hok
    simp [getThreadContextE, hok, fetchContentsLoop_spec]
  · intro ev lts e hpost hg
    have hctx : getThreadContextE env ev.channel ev.threadTimeStamp =
        (.error ("failed to get conversation replies: " ++ e),
          [Ev.getReplies ev.channel ev.threadTimeStamp]) := by
      simp [getThreadContextE, hg]
    have htrace : handleThreadMention env ev =
        [Ev.post ev.channel ":loading:" ev.threadTimeStamp,
         Ev.update lts ":loading: Getting thread context...",
         Ev.getReplies ev.channel ev.threadTimeStamp,
         Ev.update lts
           ("Error getting thread context: failed to get conversation replies: " ++ e)] := by
      rw [handleThreadMention, hpost]
      rw [hctx]
      rfl
    refine ⟨htrace, ?_⟩
    intro m c q hmem
    rw [htrace] at hmem
    simp at hmem

/-- C8 witness: with a failing history retrieval the aggregator
reports the wrapped error, and the threaded path ends in the reported
error with no Summarizer call. -/
theorem c8_witness :
    (getThreadContextE envHistFail "CH" "9.9").1 =
      .error "failed to get conversation replies: rate limited" ∧
    handleThreadMention envHistFail evThreaded =
      [Ev.post "CH" ":loading:" "9.9",
       Ev.update "100.200" ":loading: Getting thread context...",
       Ev.getReplies "CH" "9.9",
       Ev.update "100.200"
         "Error getting thread context: failed to get conversation replies: rate limited"] :=
  ⟨(c8_history_failure_semantics envHistFail "CH" "9.9").2.1 "rate limited" rfl,
    ((c8_history_failure_semantics envHistFail "CH" "9.9").2.2.2
      evThreaded "100.200" "rate limited" rfl rfl).1⟩

theorem lastUpdateText_append_update (l : List Ev) (ts t : String) :
    lastUpdateText (l ++ [Ev.update ts t]) = some t := by
  unfold lastUpdateText
  rw [List.filterMap_append]
  simp [updateText, List.getLast?_concat]

theorem fetchLatestLoop_fetch_mem (env : Env) (cb : Option String) (n : Nat) :
    ∀ (l : List String) (i : Nat) (acc : List (String × String)),
      (∀ u ∈ l, ∃ c, env.fetch u = .ok c) →
      ∀ u ∈ l, Ev.fetch u ∈ (fetchLatestLoop env cb n i l acc).2 := by
  intro l
  induction l with
  | nil => intro i acc _ u hu; simp at hu
  | cons v rest ih =>
    intro i acc hok u hu
    obtain ⟨c, hc⟩ := hok v (by simp)
    rcases List.mem_cons.mp hu with rfl | hu
    · simp [fetchLatestLoop, hc]
    · have hmem := ih (i + 1) (mapInsert acc v c) (fun w hw => hok w (by simp [hw])) u hu
      simp only [fetchLatestLoop, hc]
      simp only [List.mem_append]
      exact Or.inr hmem

theorem fetchLatestLoop_no_summarize (env : Env) (cb : Option String) (n : Nat) :
    ∀ (l : List String) (i : Nat) (acc : List (String × String)) (m c q : String),
      Ev.summarize m c q ∉ (fetchLatestLoop env cb n i l acc).2 := by
  intro l
  induction l with
  | nil => intro i acc m c q h; simp [fetchLatestLoop] at h
  | cons v rest ih =>
    intro i acc m c q h
    cases hf : env.fetch v with
    | error e =>
      simp only [fetchLatestLoop, hf] at h
      cases cb <;> simp [callbackEvs] at h
    | ok c' =>
      simp only [fetchLatestLoop, hf, List.mem_append] at h
      rcases h with (h | h) | h
      · cases cb <;> simp [callbackEvs] at h
      · simp at h
      · exact ih (i + 1) (mapInsert acc v c') m c q h

theorem fetchLatestLoop_first_error (env : Env) (cb : Option String) (n : Nat)
    (u e : String) (rest : List String) (hu : env.fetch u = .error e) :
    ∀ (pre : List String) (i : Nat) (acc : List (String × String)),
      (∀ v ∈ pre, ∃ c, env.fetch v = .ok c) →
      (fetchLatestLoop env cb n i (pre ++ u :: rest) acc).1 =
        .error ("failed to fetch content for URL " ++ u ++ ": " ++ e) ∧
      Ev.fetch u ∈ (fetchLatestLoop env cb n i (pre ++ u :: rest) acc).2 := by
  intro pre
  induction pre with
  | nil =>
    intro i acc _
    rw [List.nil_append]
    simp only [fetchLatestLoop, hu]
    simp
  | cons w pre ih =>
    intro i acc hok
    obtain ⟨c, hc⟩ := hok w (by simp)
    obtain ⟨h1, h2⟩ := ih (i + 1) (mapInsert acc w c) (fun v hv => hok v (by simp [hv]))
    rw [List.cons_append]
    simp only [fetchLatestLoop, hc]
    refine ⟨h1, ?_⟩
    simp only [List.mem_append]
    exact Or.inr h2

/-- C2 (amended): in the Threaded path, content is fetched for every
URL extracted from the latest mention, with no lookup in the thread
context's existing mapping (the loop stops at the first failure); any
fetch failure is fatal to the whole mention: an error is returned, no
Summarizer call is made, and the handler reports the error as the
final state of the status message. -/
theorem c2_thread_fetch_behaviour (env : Env) (tc : ThreadContext)
    (text : String) (cb : Option String) :
    (∀ urls : List String, (∀ u ∈ urls, ∃ c, env.fetch u = .ok c) →
      ∀ u ∈ urls,
        Ev.fetch u ∈ (ProcessThreadMentionWithProgress env tc text urls cb).2) ∧
    (∀ (pre rest : List String) (u e : String),
      (∀ v ∈ pre, ∃ c, env.fetch v = .ok c) →
      env.fetch u = .error e →
      (ProcessThreadMentionWithProgress env tc text (pre ++ u :: rest) cb).1 =
        .error ("failed to fetch content for URL " ++ u ++ ": " ++ e) ∧
      (∀ m c q, Ev.summarize m c q ∉
        (ProcessThreadMentionWithProgress env tc text (pre ++ u :: rest) cb).2) ∧
      Ev.fetch u ∈ (ProcessThreadMentionWithProgress env tc text (pre ++ u :: rest) cb).2) ∧
    (∀ (ev : MentionEvent) (lts err : String) (tc' : ThreadContext) (gevs pevs : List Ev),
      env.post ev.channel ":loading:" ev.threadTimeStamp = .ok lts →
      getThreadContextE env ev.channel ev.threadTimeStamp = (.ok tc', gevs) →
      ProcessThreadMentionWithProgress env tc' ev.text (extractURLs ev.text) (some lts) =
        (.error err, pevs) →
      lastUpdateText (handleThreadMention env ev) =
        some ("Error processing thread mention: " ++ err)) := by
  refine ⟨?_, ?_, ?_⟩
  · intro urls hok u hu
    have hm := fetchLatestLoop_fetch_mem env cb urls.length urls 0 [] hok u hu
    rcases hfl : fetchLatestLoop env cb urls.length 0 urls [] with ⟨res | latest, evs⟩
    · rw [hfl] at hm
      simp only [ProcessThreadMentionWithProgress, hfl]
      exact hm
    · rw [hfl] at hm
      rcases hpc : env.processContentWithMode (buildThreadPrompt tc text latest) "" "thread"
          with e | r <;>
        simp only [ProcessThreadMentionWithProgress, hfl, hpc] <;>
        exact List.mem_append_left _ (List.mem_append_left _ hm)
  · intro pre rest u e hok hu
    obtain ⟨h1, h2⟩ := fetchLatestLoop_first_error env cb (pre ++ u :: rest).length
      u e rest hu pre 0 [] hok
    have hns := fetchLatestLoop_no_summarize env cb (pre ++ u :: rest).length
      (pre ++ u :: rest) 0 []
    rcases hfl : fetchLatestLoop env cb (pre ++ u :: rest).length 0 (pre ++ u :: rest) []
        with ⟨res | latest, evs⟩
    · rw [hfl] at h1 h2
      simp only at h1
      simp only [ProcessThreadMentionWithProgress, hfl]
      have hres : res = "failed to fetch content for URL " ++ u ++ ": " ++ e := by
        injection h1
      refine ⟨by rw [hres], ?_, h2⟩
      intro m c q
      have hn := hns m c q
      rw [hfl] at hn
      exact hn
    · rw [hfl] at h1
      simp at h1
  · intro ev lts err tc' gevs pevs hpost hG hP
    simp only [handleThreadMention, hpost, hG, hP]
    exact lastUpdateText_append_update _ lts _

/-- C2 counterexample: a URL already present in the thread context's
URL-to-content mapping is fetched again by the Threaded path, so
content is not fetched only for URLs absent from the mapping. -/
theorem c2_counterexample :
    ("http://ok.example/a", "CONTENT-A") ∈ tcA.URLContents ∧
    Ev.fetch "http://ok.example/a" ∈
      (ProcessThreadMentionWithProgress envA tcA "q" ["http://ok.example/a"] none).2 := by
  constructor
  · decide
  · decide

/-- C2 witness: a failing fetch in the Threaded path yields the
wrapped fetch error as the overall result. -/
theorem c2_witness :
    (ProcessThreadMentionWithProgress envA tcA "q" ["http://down.example"] none).1 =
      .error "failed to fetch content for URL http://down.example: connection refused" :=
  ((c2_thread_fetch_behaviour envA tcA "q" none).2.1 [] [] "http://down.example"
    "connection refused" (by simp) rfl).1

theorem lastUpdateText_cons_post (a b c : String) (l : List Ev) :
    lastUpdateText (Ev.post a b c :: l) = lastUpdateText l := by
  simp [lastUpdateText, updateText]

theorem purl_summarize_mem (env : Env) (u c : String) (cb : Option String)
    (hf : env.fetch u = .ok c) (hc : c ≠ "") :
    Ev.summarize "summary" c "" ∈ (ProcessURLWithProgress env u "" cb).2 := by
  rcases hpc : processContentDefault env c "" with e | s <;>
    simp [ProcessURLWithProgress, hf, hc, hpc]

theorem newMentionLoop_summarize_mem (env : Env) (lts : String) (n : Nat)
    (u c : String) (hf : env.fetch u = .ok c) (hc : c ≠ "") :
    ∀ (urls : List String) (i : Nat), u ∈ urls →
      Ev.summarize "summary" c "" ∈ (newMentionLoop env lts n i urls).2 := by
  intro urls
  induction urls with
  | nil => intro i h; simp at h
  | cons v rest ih =>
    intro i hu
    rcases List.mem_cons.mp hu with rfl | hu
    · have hp := purl_summarize_mem env u c (some lts) hf hc
      rcases hP : ProcessURLWithProgress env u "" (some lts) with ⟨res | s, pevs⟩ <;>
        rw [hP] at hp <;>
        simp only [newMentionLoop, hP, List.mem_append] <;> tauto
    · have hrec := ih (i + 1) hu
      rcases hP : ProcessURLWithProgress env v "" (some lts) with ⟨res | s, pevs⟩ <;>
        simp only [newMentionLoop, hP, List.mem_append] <;> tauto

/-- C3 (amended): in the New-mention path, for every URL whose fetch
succeeds with nonempty content, the Summarizer is invoked in summary
mode with the empty string as the user-prompt argument; the mention's
trailing prompt text is never forwarded (see the counterexample). -/
theorem c3_summary_mode_empty_prompt (env : Env) (ev : MentionEvent)
    (lts u c : String)
    (hpost : env.post ev.channel ":loading:" ev.timeStamp = .ok lts)
    (hu : u ∈ extractURLs ev.text)
    (hf : env.fetch u = .ok c) (hc : c ≠ "") :
    Ev.summarize "summary" c "" ∈ handleNewMention env ev := by
  have hne : (extractURLs ev.text).isEmpty = false := by
    rcases hx : extractURLs ev.text with _ | ⟨a, l⟩
    · rw [hx] at hu; simp at hu
    · simp
  have hloop := newMentionLoop_summarize_mem env lts (extractURLs ev.text).length u c hf hc
    (extractURLs ev.text) 0 hu
  simp only [handleNewMention, hne, Bool.false_eq_true, if_false, hpost, List.mem_append,
    List.mem_cons]
  tauto

/-- C3 counterexample: a mention with trailing prompt text
`please explain the title` after its URL produces a Summarizer call
whose user-prompt argument is the empty string, and no Summarizer
call carrying the trailing text. -/
theorem c3_counterexample :
    Ev.summarize "summary" "CONTENT-A" "" ∈ handleNewMention envA evPrompted ∧
    (handleNewMention envA evPrompted).any
      (fun e => match e with
        | Ev.summarize _ _ q => q == "please explain the title"
        | _ => false) = false := by
  constructor
  · decide
  · decide

/-- C3 witness: the concrete mention's summarize call uses summary
mode and an empty user prompt. -/
theorem c3_witness :
    Ev.summarize "summary" "CONTENT-A" "" ∈ handleNewMention envA evPrompted :=
  c3_summary_mode_empty_prompt envA evPrompted "100.200" "http://ok.example/a" "CONTENT-A"
    rfl (by decide) rfl (by decide)

/-- C4 (amended): in the New-mention path with two URLs where the
first fails to fetch, processing continues past the failure: the
per-URL error note is shown as an intermediate progress update, the
second URL is still fetched and summarized, and the final user-visible
report is the summary for the succeeding URL alone (the transient
error note is overwritten by it). -/
theorem c4_partial_failure_behaviour (env : Env) (ev : MentionEvent)
    (lts u1 u2 e c s : String)
    (hurls : extractURLs ev.text = [u1, u2])
    (hpost : env.post ev.channel ":loading:" ev.timeStamp = .ok lts)
    (hf1 : env.fetch u1 = .error e)
    (hf2 : env.fetch u2 = .ok c) (hc : c ≠ "")
    (hpc : env.processContentWithMode c "" "summary" = .ok s) :
    Ev.update lts ("Error summarizing " ++ u1 ++ ": " ++ ("failed to fetch content: " ++ e)) ∈
      handleNewMention env ev ∧
    Ev.summarize "summary" c "" ∈ handleNewMention env ev ∧
    lastUpdateText (handleNewMention env ev) =
      some ("Summary for " ++ u2 ++ ":\n" ++ s) := by
  have h1 : (newMentionLoop env lts ([u1, u2] : List String).length 0 [u1, u2]).1 =
      ["Summary for " ++ u2 ++ ":\n" ++ s] := by
    simp only [newMentionLoop, ProcessURLWithProgress, processContentDefault, callbackEvs,
      hf1, hf2, hpc, if_neg hc]
  have hsingle : String.intercalate "\n\n---\n\n" ["Summary for " ++ u2 ++ ":\n" ++ s] =
      "Summary for " ++ u2 ++ ":\n" ++ s := rfl
  refine ⟨?_, ?_, ?_⟩
  · simp [handleNewMention, hurls, hpost, newMentionLoop, ProcessURLWithProgress,
      processContentDefault, callbackEvs, hf1, hf2, hpc, hc]
  · simp [handleNewMention, hurls, hpost, newMentionLoop, ProcessURLWithProgress,
      processContentDefault, callbackEvs, hf1, hf2, hpc, hc]
  · simp only [handleNewMention, hurls, List.isEmpty_cons, Bool.false_eq_true, if_false,
      hpost, h1, hsingle]
    exact lastUpdateText_append_update _ lts _

/-- C4 counterexample: with two URLs where the first fails to fetch,
the final user-visible report is exactly the summary of the second
URL, containing no error note for the first. -/
theorem c4_counterexample :
    lastUpdateText (handleNewMention envA evTwoURLs) =
      some "Summary for http://ok.example/b:\nRESP-summary" ∧
    hasSubstr "Summary for http://ok.example/b:\nRESP-summary".data "Error".data = false := by
  constructor
  · decide
  · decide

/-- C4 witness: in the concrete two-URL scenario the error note
appears as an intermediate update and the final report is the summary
of the succeeding URL. -/
theorem c4_witness :
    Ev.update "100.200"
        ("Error summarizing " ++ "http://down.example" ++ ": " ++
          ("failed to fetch content: " ++ "connection refused")) ∈
      handleNewMention envA evTwoURLs ∧
    lastUpdateText (handleNewMention envA evTwoURLs) =
      some ("Summary for " ++ "http://ok.example/b" ++ ":\n" ++ "RESP-summary") :=
  ⟨(c4_partial_failure_behaviour envA evTwoURLs "100.200" "http://down.example"
      "http://ok.example/b" "connection refused" "CONTENT-B" "RESP-summary"
      (by decide) rfl rfl rfl (by decide) rfl).1,
    (c4_partial_failure_behaviour envA evTwoURLs "100.200" "http://down.example"
      "http://ok.example/b" "connection refused" "CONTENT-B" "RESP-summary"
      (by decide) rfl rfl rfl (by decide) rfl).2.2⟩

/-- C5 (amended): empty fetched content is treated as a fetch failure
only in the New-mention per-URL pipeline: `ProcessURLWithProgress`
returns the empty-content error and makes no Summarizer call.  The
Threaded path has no such check and stores and forwards empty content
(see the counterexample). -/
theorem c5_empty_content_new_path (env : Env) (url userPrompt : String)
    (cb : Option String) (h : env.fetch url = .ok "") :
    (ProcessURLWithProgress env url userPrompt cb).1 =
      .error ("fetched content is empty for url: " ++ url) ∧
    ∀ m c q, Ev.summarize m c q ∉ (ProcessURLWithProgress env url userPrompt cb).2 := by
  have hP : ProcessURLWithProgress env url userPrompt cb =
      (.error ("fetched content is empty for url: " ++ url),
        callbackEvs cb (":loading: Fetching content from " ++ url ++ "...") ++ [Ev.fetch url]) := by
    simp [ProcessURLWithProgress, h]
  rw [hP]
  refine ⟨rfl, ?_⟩
  intro m c q hm
  simp only [List.mem_append] at hm
  rcases hm with hm | hm
  · cases cb <;> simp [callbackEvs] at hm
  · simp at hm

/-- C5 counterexample: in the Threaded path a URL whose fetch returns
empty content is not treated as a failure: the mention succeeds and a
Summarizer call is still made (with the empty content embedded in the
composite prompt). -/
theorem c5_counterexample :
    (ProcessThreadMentionWithProgress envA tcA "q" ["http://empty.example"] none).1 =
      .ok "RESP-thread" ∧
    (ProcessThreadMentionWithProgress envA tcA "q" ["http://empty.example"] none).2.any
      isSummarizeEv = true := by
  constructor
  · rfl
  · decide

/-- C5 witness: the concrete empty-content URL is rejected by the
New-mention pipeline. -/
theorem c5_witness :
    (ProcessURLWithProgress envA "http://empty.example" "" none).1 =
      .error ("fetched content is empty for url: " ++ "http://empty.example") :=
  (c5_empty_content_new_path envA "http://empty.example" "" none rfl).1

/-- C6: every string returned by URL extraction begins with `http://`,
`https://` or `www.`; the returned strings occur in the input in their
order of appearance; duplicates are preserved, as on the specification
example text, which yields the same URL twice; and extraction is
idempotent: re-extracting from the whitespace-joined output returns
the same list (hence the same set) of URLs. -/
theorem c6_extract_urls_spec (t : String) :
    (∀ u ∈ extractURLs t,
      httpsPre <+: u.data ∨ httpPre <+: u.data ∨ wwwPre <+: u.data) ∧
    appearsInOrder ((extractURLs t).map String.data) t.data ∧
    extractURLs (String.intercalate " " (extractURLs t)) = extractURLs t ∧
    extractURLs "check this out http://example.com/a and http://example.com/a again" =
      ["http://example.com/a", "http://example.com/a"] := by
  refine ⟨?_, ?_, ?_, ?_⟩
  · intro u hu
    obtain ⟨l, hl, rfl⟩ := List.mem_map.mp hu
    obtain ⟨p, r, hp, rfl, _, _⟩ := extractAux_valid _ _ l hl
    rcases hp with rfl | rfl | rfl
    · exact Or.inl ⟨r, rfl⟩
    · exact Or.inr (Or.inl ⟨r, rfl⟩)
    · exact Or.inr (Or.inr ⟨r, rfl⟩)
  · rw [show (extractURLs t).map String.data = extractAux t.data.length t.data from
      data_map_mk _]
    exact extractAux_appears _ _
  · have hdata : (String.intercalate " " (extractURLs t)).data
        = joinSp (extractAux t.data.length t.data) := by
      rw [intercalate_space_data]
      rw [show (extractURLs t).map String.data = extractAux t.data.length t.data from
        data_map_mk _]
    show (extractAux (String.intercalate " " (extractURLs t)).data.length
        (String.intercalate " " (extractURLs t)).data).map String.mk = extractURLs t
    rw [hdata]
    rw [extractAux_joinSp (extractAux t.data.length t.data) _ (extractAux_valid _ _) le_rfl]
    rfl
  · decide

/-- C6 witness: a concrete extracted URL begins with one of the three
recognized heads. -/
theorem c6_witness :
    httpsPre <+: ("http://a.example/x" : String).data ∨
    httpPre <+: ("http://a.example/x" : String).data ∨
    wwwPre <+: ("http://a.example/x" : String).data :=
  (c6_extract_urls_spec "go http://a.example/x now").1 "http://a.example/x" (by decide)
